import Mathlib

/-!
Verification of the BabyFood synchronization and cache layer
(`miniprogram/utils/api.js`, the storage module, and the request module).

JavaScript strings are modelled as `List Char` (`JStr`).  JSON documents
flowing through the layer are modelled by the closed universe `JSVal`,
mirroring exactly the fields the code inspects (`version`, `items`, `id`,
`cover_image`, `tags`, `steps`) plus a `rest` component standing for all
other fields, which the code copies verbatim via object spread.

JavaScript reference identity (`===` on arrays and objects, used by the
normalizers to signal "nothing changed") is modelled by an explicit `Bool`
returned next to the value: `true` exactly when the source code returns the
very object it was given.  For strings and `undefined`, `===` is value
equality, matching structural equality of the model.

The persistent store (`storage.get` / `storage.set` / `storage.remove`) is a
single association list from key strings to values, most recent write first,
mirroring the single flat key space of the real store.  The remote fetcher is
an environment function from URL to response; every resolver returns, along
with its value and the updated store, the list of URLs it requested, so that
"no network request was issued" is directly observable.
-/

/-- A JavaScript string, as a list of characters. -/
abbrev JStr := List Char

/-- Embed a Lean string literal as a `JStr`. -/
def jstr (s : String) : JStr := s.toList

/-- `joinUrl(base, path)` from api.js: ensure `base` ends with `/`, strip one
leading `/` from `path`, and concatenate. -/
def joinUrl (base path : JStr) : JStr :=
  let b := if base.getLast? = some '/' then base else base ++ ['/']
  b ++ (match path with
        | '/' :: rest => rest
        | p => p)

/-- Uppercase hexadecimal digit, as used by `encodeURIComponent`. -/
def hexDigit (n : Nat) : Char :=
  if n < 10 then Char.ofNat (48 + n) else Char.ofNat (55 + n)

/-- Two-digit uppercase hexadecimal rendering of a byte. -/
def toHex2 (n : Nat) : JStr := [hexDigit (n / 16 % 16), hexDigit (n % 16)]

/-- UTF-8 bytes of a character, for percent-encoding. -/
def utf8Bytes (c : Char) : List Nat :=
  let n := c.toNat
  if n < 128 then [n]
  else if n < 2048 then [192 + n / 64, 128 + n % 64]
  else if n < 65536 then [224 + n / 4096, 128 + n / 64 % 64, 128 + n % 64]
  else [240 + n / 262144, 128 + n / 4096 % 64, 128 + n / 64 % 64, 128 + n % 64]

/-- JavaScript `encodeURIComponent`: unreserved characters pass through,
everything else is percent-encoded from its UTF-8 bytes. -/
def encodeURIComponent (s : JStr) : JStr :=
  s.flatMap fun c =>
    if c.isAlphanum || ['-', '_', '.', '!', '~', '*', '\x27', '(', ')'].contains c
    then [c]
    else (utf8Bytes c).flatMap fun b => '%' :: toHex2 b

/-- `withQuery(url, params)` from api.js: drop entries whose value is
empty (the source drops `undefined`/`null`/`""`; absent and null values are
modelled as the empty string), encode `k=v` pairs, join with `&`, and append
with `?` or `&` depending on whether the URL already has a query. -/
def withQuery (url : JStr) (params : List (JStr × JStr)) : JStr :=
  let q := List.intercalate ['&']
    ((params.filter fun p => p.2 ≠ []).map fun p =>
      encodeURIComponent p.1 ++ ['='] ++ encodeURIComponent p.2)
  if q = [] then url
  else url ++ (if url.contains '?' then ['&'] else ['?']) ++ q

/-- `CDN_BASE` from miniprogram/config.js. -/
def CDN_BASE : JStr := jstr "http://127.0.0.1:8000/backend/data"

/-- `PATHS.manifest` from config.js. -/
def PATH_manifest : JStr := jstr "manifest.json"

/-- `PATHS.index` from config.js. -/
def PATH_index : JStr := jstr "recipes_index.json"

/-- `PATHS.recipeDir` from config.js. -/
def PATH_recipeDir : JStr := jstr "recipes"

/-- `STORAGE_KEYS.manifest` from config.js. -/
def KEY_manifest : JStr := jstr "bf_manifest"

/-- `STORAGE_KEYS.index` from config.js. -/
def KEY_index : JStr := jstr "bf_index"

/-- `STORAGE_KEYS.cachePrefix` from config.js. -/
def KEY_cachePrefix : JStr := jstr "bf_cache_"

/-- A summary record inside an index document's `items` array: the fields
the normalizer touches plus `rest` for everything the spread copies. -/
structure SItem where
  cover_image : Option JStr
  tags : Option (List JStr)
  rest : JStr
deriving DecidableEq, Repr

/-- A step record inside a detail document's `steps` array. -/
structure SStep where
  img : Option JStr
  rest : JStr
deriving DecidableEq, Repr

/-- The universe of JSON values flowing through the cache layer.  `mdoc` is
an object carrying a `version` field (the empty string standing for an empty
or absent field, both falsy), `xdoc` an object whose `items` field is an
array when the option is `some`, `rdoc` a detail object (empty `id` standing
for an empty or absent id).  `null` covers JavaScript `null`/`undefined`. -/
inductive JSVal where
  | null
  | str (s : JStr)
  | mdoc (version : JStr) (rest : JStr)
  | xdoc (items : Option (List (Option SItem))) (rest : JStr)
  | rdoc (id : JStr) (cover_image : Option JStr) (tags : Option (List JStr))
         (steps : Option (List (Option SStep))) (rest : JStr)
deriving DecidableEq, Repr

/-- JavaScript truthiness of a `JSVal` (`null`/`undefined` and `""` are
falsy; objects and non-empty strings are truthy). -/
def truthy : JSVal → Bool
  | .null => false
  | .str s => s ≠ []
  | _ => true

/-- Reading `.version` off a value: present only on `mdoc`; on anything else
the field is `undefined`, modelled as the empty (falsy) string. -/
def versionOf : JSVal → JStr
  | .mdoc v _ => v
  | _ => []

/-- Reading `.id` off a value: present only on `rdoc`. -/
def idOf : JSVal → JStr
  | .rdoc i _ _ _ _ => i
  | _ => []

/-- `Array.isArray(x.items)` on a value. -/
def hasItems : JSVal → Bool
  | .xdoc (some _) _ => true
  | _ => false

/-- The persistent key-value store: an association list from key strings to
values, most recent write first.  This is the single flat key space of the
real storage backend. -/
abbrev Store := List (JStr × JSVal)

/-- The raw backend read: the stored value at a key, if any. -/
def rawGet (st : Store) (k : JStr) : Option JSVal :=
  (st.find? fun p => p.1 = k).map (·.2)

/-- `get(key, defaultValue)` from the storage module: an absent key (the
backend yields `""` for it) and a stored empty string or `undefined` all
give back the supplied default; a backend failure (not modelled — the
association list cannot fail) also gives the default. -/
def storageGet (st : Store) (k : JStr) (deflt : JSVal) : JSVal :=
  match rawGet st k with
  | none => deflt
  | some v => if v = .str [] then deflt else v

/-- `set(key, value)` from the storage module (the success flag is always
true in the model; a storage write failure is not modelled). -/
def storageSet (st : Store) (k : JStr) (v : JSVal) : Store :=
  (k, v) :: st

/-- `remove(key)` from the storage module. -/
def storageRemove (st : Store) (k : JStr) : Store :=
  st.filter fun p => ¬ p.1 = k

/-- `normalizeMediaUrl(maybeUrl)` checks `/^https?:\/\//i`: case-insensitive
ASCII prefix test. -/
def isAbsoluteUrl (s : JStr) : Bool :=
  decide ((s.take 7).map Char.toLower = jstr "http://") ||
  decide ((s.take 8).map Char.toLower = jstr "https://")

/-- `normalizeMediaUrl(maybeUrl)` from api.js: falsy input is returned
unchanged, absolute URLs are returned unchanged, anything else is joined to
`CDN_BASE`.  (`none` models an absent field.) -/
def normalizeMediaUrl : Option JStr → Option JStr
  | none => none
  | some s =>
    if s = [] then some s
    else if isAbsoluteUrl s then some s
    else some (joinUrl CDN_BASE s)

/-- The `add` closure inside `normalizeMealTags`: skip empty keys, record a
duplicate as a change, otherwise append.  The accumulator is the `out` array
paired with the `changed` flag; the `seen` set always holds exactly the
elements of `out`. -/
def nmtAdd (acc : List JStr × Bool) (t : JStr) : List JStr × Bool :=
  if t = [] then acc
  else if acc.1.contains t then (acc.1, true)
  else (acc.1 ++ [t], acc.2)

/-- One iteration of the `tags.forEach` body of `normalizeMealTags`: skip
falsy entries, map the legacy tokens (each marking a change), add everything
else verbatim. -/
def nmtStep (acc : List JStr × Bool) (t : JStr) : List JStr × Bool :=
  if t = [] then acc
  else if t = jstr "点心" then nmtAdd (acc.1, true) (jstr "小吃")
  else if t = jstr "正餐" then nmtAdd (acc.1, true) (jstr "正餐")
  else if t = jstr "Breakfast" then nmtAdd (acc.1, true) (jstr "早餐")
  else if t = jstr "Lunch" then nmtAdd (acc.1, true) (jstr "午餐")
  else if t = jstr "Dinner" then nmtAdd (acc.1, true) (jstr "晚餐")
  else if t = jstr "Snack" then nmtAdd (acc.1, true) (jstr "小吃")
  else nmtAdd acc t

/-- `normalizeMealTags(tags)` from api.js.  The second component is `true`
exactly when the source returns the array it was given (non-array input, or
no change was recorded and no entry was dropped). -/
def normalizeMealTags (tags : Option (List JStr)) : Option (List JStr) × Bool :=
  match tags with
  | none => (none, true)
  | some l =>
    let r := l.foldl nmtStep ([], false)
    if !r.2 && r.1.length = l.length then (some l, true)
    else (some r.1, false)

/-- The per-item body of `normalizeIndexData`: falsy entries are returned
as-is; otherwise the item is rebuilt when the cover (string value equality)
or the tags (array reference equality) changed. -/
def normItem : Option SItem → Option SItem × Bool
  | none => (none, true)
  | some i =>
    let nextCover := normalizeMediaUrl i.cover_image
    let r := normalizeMealTags i.tags
    if nextCover = i.cover_image ∧ r.2 then (some i, true)
    else (some { i with cover_image := nextCover, tags := r.1 }, false)

/-- `normalizeIndexData(data)` from api.js, lifted to `JSVal`: anything that
is falsy or lacks an `items` array is returned as-is; otherwise each item is
normalized and the document rebuilt only if some item changed.  The second
component is `true` exactly when the source returns its argument. -/
def normalizeIndexVal (v : JSVal) : JSVal × Bool :=
  match v with
  | .xdoc (some items) rest =>
    let ps := items.map normItem
    if ps.any fun p => !p.2 then (.xdoc (some (ps.map Prod.fst)) rest, false)
    else (v, true)
  | w => (w, true)

/-- The per-step body of `normalizeRecipeData`: falsy entries as-is,
otherwise rebuild the step when its `img` changed by value. -/
def normStep : Option SStep → Option SStep × Bool
  | none => (none, true)
  | some s =>
    let nextImg := normalizeMediaUrl s.img
    if nextImg = s.img then (some s, true)
    else (some { s with img := nextImg }, false)

/-- `normalizeRecipeData(data)` from api.js, lifted to `JSVal`: falsy values
and documents without a truthy `id` are returned as-is; otherwise the cover,
tags and steps are normalized and the document rebuilt when anything
changed.  The second component is `true` exactly when the source returns its
argument. -/
def normalizeRecipeVal (v : JSVal) : JSVal × Bool :=
  match v with
  | .rdoc id cover tags steps rest =>
    if id = [] then (v, true)
    else
      let nextCover := normalizeMediaUrl cover
      let coverChanged := decide (¬ nextCover = cover)
      let tr := normalizeMealTags tags
      let sr : Option (List (Option SStep)) × Bool :=
        match steps with
        | none => (none, false)
        | some l =>
          let ps := l.map normStep
          if ps.any fun p => !p.2 then (some (ps.map Prod.fst), true)
          else (some l, false)
      if coverChanged || !tr.2 || sr.2 then
        (.rdoc id (if coverChanged then nextCover else cover)
              (if tr.2 then tags else tr.1)
              (if sr.2 then sr.1 else steps) rest, false)
      else (v, true)
  | w => (w, true)

/-- Outcome of one `requestJson` call: a decoded body, or a rejection
(transport failure, non-2xx status, or decode failure — all surfaced to the
resolvers as the single catch branch). -/
inductive NetResult where
  | ok (v : JSVal)
  | err
deriving DecidableEq, Repr

/-- The ambient world of a resolver call: the remote responses by URL, the
current `Date.now()` rendered as a string, and the bundled seed modules by
relative path (`none` when `require` throws, i.e. no module is bundled). -/
structure Env where
  net : JStr → NetResult
  now : JStr
  seed : JStr → Option JSVal

/-- `loadSeedJson(relPath)` from api.js: the bundled module, or `null` when
the `require` fails. -/
def loadSeedJson (env : Env) (relPath : JStr) : JSVal :=
  (env.seed relPath).getD .null

/-- Result of one resolver call: the returned value, the store after the
call, and the URLs requested (in order). -/
structure FetchOut where
  val : JSVal
  st : Store
  reqs : List JStr
deriving Repr

/-- `fetchManifest({force})` from api.js. -/
def fetchManifest (env : Env) (st : Store) (force : Bool) : FetchOut :=
  let cached := storageGet st KEY_manifest .null
  if !force && truthy cached && versionOf cached ≠ [] then
    ⟨cached, st, []⟩
  else
    let needBust := force || !truthy cached || decide (versionOf cached = [])
    let url := withQuery (joinUrl CDN_BASE PATH_manifest)
      (if needBust then [(jstr "t", env.now)] else [])
    match env.net url with
    | .ok data =>
      let st1 := if truthy data && versionOf data ≠ [] then
          storageSet st KEY_manifest data
        else st
      ⟨data, st1, [url]⟩
    | .err =>
      if truthy cached && versionOf cached ≠ [] then ⟨cached, st, [url]⟩
      else ⟨loadSeedJson env PATH_manifest, st, [url]⟩

/-- `fetchIndex({force})` from api.js. -/
def fetchIndex (env : Env) (st : Store) (force : Bool) : FetchOut :=
  let cached := storageGet st KEY_index .null
  if !force && truthy cached && hasItems cached then
    let r := normalizeIndexVal cached
    let st1 := if !r.2 then storageSet st KEY_index r.1 else st
    ⟨r.1, st1, []⟩
  else
    let manifest0 := storageGet st KEY_manifest .null
    let step1 : JSVal × Store × List JStr :=
      if !truthy manifest0 || decide (versionOf manifest0 = []) then
        let m := fetchManifest env st false
        (m.val, m.st, m.reqs)
      else (manifest0, st, [])
    let manifest := step1.1
    let st1 := step1.2.1
    let bust := if truthy manifest && versionOf manifest ≠ [] then
        versionOf manifest
      else []
    let url := withQuery (joinUrl CDN_BASE PATH_index)
      (if force then [(jstr "v", bust), (jstr "t", env.now)] else [(jstr "v", bust)])
    match env.net url with
    | .ok data =>
      let normalized := (normalizeIndexVal data).1
      let st2 := if truthy normalized && hasItems normalized then
          storageSet st1 KEY_index normalized
        else st1
      ⟨normalized, st2, step1.2.2 ++ [url]⟩
    | .err =>
      if truthy cached && hasItems cached then
        let r := normalizeIndexVal cached
        let st2 := if !r.2 then storageSet st1 KEY_index r.1 else st1
        ⟨r.1, st2, step1.2.2 ++ [url]⟩
      else
        ⟨(normalizeIndexVal (loadSeedJson env PATH_index)).1, st1, step1.2.2 ++ [url]⟩

/-- `recipeCacheKey(id, version)` from api.js: a falsy `version` argument
(`null`, i.e. `none`, or the empty string) uses the sentinel `"0"`. -/
def recipeCacheKey (id : JStr) (version : Option JStr) : JStr :=
  let v := match version with
    | some s => if s = [] then jstr "0" else s
    | none => jstr "0"
  KEY_cachePrefix ++ jstr "recipe_" ++ id ++ jstr "_v" ++ v

/-- `fetchRecipe(id, {force, version})` from api.js. -/
def fetchRecipe (env : Env) (st : Store) (id : JStr) (force : Bool)
    (version : Option JStr) : FetchOut :=
  if id = [] then ⟨.null, st, []⟩
  else
    let key := recipeCacheKey id version
    let cached := storageGet st key .null
    if !force && truthy cached && idOf cached ≠ [] then
      let r := normalizeRecipeVal cached
      let st1 := if !r.2 then storageSet st key r.1 else st
      ⟨r.1, st1, []⟩
    else
      let manifest0 := storageGet st KEY_manifest .null
      let step1 : JSVal × Store × List JStr :=
        if !truthy manifest0 || decide (versionOf manifest0 = []) then
          let m := fetchManifest env st false
          (m.val, m.st, m.reqs)
        else (manifest0, st, [])
      let manifest := step1.1
      let st1 := step1.2.1
      let bust := if truthy manifest && versionOf manifest ≠ [] then
          versionOf manifest
        else []
      let relPath := PATH_recipeDir ++ ['/'] ++ id ++ jstr ".json"
      let url := withQuery (joinUrl CDN_BASE relPath)
        (if force then [(jstr "v", bust), (jstr "t", env.now)] else [(jstr "v", bust)])
      match env.net url with
      | .ok data =>
        let normalized := (normalizeRecipeVal data).1
        let st2 := if truthy normalized && idOf normalized ≠ [] then
            storageSet st1 key normalized
          else st1
        ⟨normalized, st2, step1.2.2 ++ [url]⟩
      | .err =>
        if truthy cached && idOf cached ≠ [] then
          let r := normalizeRecipeVal cached
          let st2 := if !r.2 then storageSet st1 key r.1 else st1
          ⟨r.1, st2, step1.2.2 ++ [url]⟩
        else
          ⟨(normalizeRecipeVal (loadSeedJson env relPath)).1, st1, step1.2.2 ++ [url]⟩

/-- Result of `checkUpdate()`. -/
structure CheckOut where
  updated : Bool
  manifest : JSVal
  st : Store
  reqs : List JStr
deriving Repr

/-- `checkUpdate()` from api.js (the spec calls it `checkForUpdate`).
`String(x.version)` on a document whose version field is empty or absent is
modelled as the empty string. -/
def checkUpdate (env : Env) (st : Store) : CheckOut :=
  let oldManifest := storageGet st KEY_manifest .null
  let m := fetchManifest env st true
  let updated :=
    truthy m.val && versionOf m.val ≠ [] &&
      (!truthy oldManifest || decide (versionOf oldManifest ≠ versionOf m.val))
  ⟨updated, m.val, m.st, m.reqs⟩

/-- A value usable as a cached Manifest: truthy with a non-empty version. -/
def validManifest (v : JSVal) : Bool := truthy v && versionOf v ≠ []

lemma rawGet_set_self (st : Store) (k : JStr) (v : JSVal) :
    rawGet (storageSet st k v) k = some v := by
  simp [rawGet, storageSet, List.find?]

lemma rawGet_set_ne (st : Store) (k k' : JStr) (v : JSVal) (h : k' ≠ k) :
    rawGet (storageSet st k' v) k = rawGet st k := by
  simp [rawGet, storageSet, List.find?, h]

lemma storageGet_set_ne (st : Store) (k k' : JStr) (v d : JSVal) (h : k' ≠ k) :
    storageGet (storageSet st k' v) k d = storageGet st k d := by
  simp [storageGet, rawGet_set_ne st k k' v h]

lemma rawGet_remove (st : Store) (k : JStr) :
    rawGet (storageRemove st k) k = none := by
  induction st with
  | nil => rfl
  | cons p t ih =>
    by_cases h : p.1 = k
    · rw [show storageRemove (p :: t) k = storageRemove t k by
        simp [storageRemove, List.filter, h]]
      exact ih
    · rw [show storageRemove (p :: t) k = p :: storageRemove t k by
        simp [storageRemove, List.filter, h]]
      rw [show rawGet (p :: storageRemove t k) k = rawGet (storageRemove t k) k by
        simp [rawGet, List.find?, h]]
      exact ih

/-- C9: the store's `get` returns the supplied default when the stored value
is the empty string, exactly as it does for a removed (absent) key, so a
persisted empty string is indistinguishable from a missing key. -/
theorem claim_C9_get_empty_string_is_default (st : Store) (k : JStr) (d : JSVal) :
    storageGet (storageSet st k (.str [])) k d = d ∧
    storageGet (storageSet st k (.str [])) k d = storageGet (storageRemove st k) k d := by
  constructor
  · simp [storageGet, rawGet_set_self]
  · simp [storageGet, rawGet_set_self, rawGet_remove]

/-- C3 as frozen is false: the supplied version token `"0"` produces exactly
the sentinel key that a missing version argument produces. -/
theorem claim_C3_counterexample :
    recipeCacheKey (jstr "r1") (some (jstr "0")) = recipeCacheKey (jstr "r1") none := by
  decide

/-- C3, amended: the cache key is a function of `(id, version)`; a missing
version uses the sentinel `"0"`, and the sentinel key is distinct from the
key of any supplied version token that is non-empty and not itself the
string `"0"` (a supplied `""` or `"0"` collapses onto the sentinel key). -/
theorem claim_C3_amended_sentinel (id v : JStr) (h1 : v ≠ []) (h2 : v ≠ jstr "0") :
    recipeCacheKey id none = KEY_cachePrefix ++ jstr "recipe_" ++ id ++ jstr "_v" ++ jstr "0" ∧
    recipeCacheKey id (some v) ≠ recipeCacheKey id none := by
  refine ⟨rfl, ?_⟩
  intro h
  unfold recipeCacheKey at h
  simp only [if_neg h1, List.append_assoc] at h
  exact h2 (List.append_cancel_left (List.append_cancel_left
    (List.append_cancel_left (List.append_cancel_left h))))

/-- Witness for the amended C3 at a concrete id and version token. -/
theorem claim_C3_amended_witness :
    recipeCacheKey (jstr "r1") none
        = KEY_cachePrefix ++ jstr "recipe_" ++ jstr "r1" ++ jstr "_v" ++ jstr "0" ∧
    recipeCacheKey (jstr "r1") (some (jstr "V9")) ≠ recipeCacheKey (jstr "r1") none :=
  claim_C3_amended_sentinel (jstr "r1") (jstr "V9") (by decide) (by decide)

/-- C1: with `force = false` and a cached Manifest carrying a non-empty
version, `fetchManifest` returns the cached document, leaves the store
untouched, and issues no network request. -/
theorem claim_C1_cache_hit_no_network (env : Env) (st : Store) (v r : JStr)
    (hv : v ≠ []) (hc : storageGet st KEY_manifest .null = .mdoc v r) :
    fetchManifest env st false = ⟨.mdoc v r, st, []⟩ := by
  unfold fetchManifest
  rw [hc]
  simp [truthy, versionOf, hv]

/-- Witness for C1 at a concrete store and environment. -/
theorem claim_C1_witness :
    fetchManifest ⟨fun _ => .err, jstr "1", fun _ => none⟩
        [(KEY_manifest, .mdoc (jstr "V1") [])] false
      = ⟨.mdoc (jstr "V1") [], [(KEY_manifest, .mdoc (jstr "V1") [])], []⟩ :=
  claim_C1_cache_hit_no_network _ _ (jstr "V1") [] (by decide) (by decide)

lemma recipeKey_ne_manifest (id : JStr) (version : Option JStr) :
    recipeCacheKey id version ≠ KEY_manifest := by
  intro h
  simp [recipeCacheKey, KEY_cachePrefix, KEY_manifest, jstr] at h

lemma recipeKey_ne_index (id : JStr) (version : Option JStr) :
    recipeCacheKey id version ≠ KEY_index := by
  intro h
  simp [recipeCacheKey, KEY_cachePrefix, KEY_index, jstr] at h

/-- `fetchManifest` writes at most the manifest slot of the store. -/
lemma fetchManifest_st_frame (env : Env) (st : Store) (force : Bool) (k : JStr)
    (hk : k ≠ KEY_manifest) :
    rawGet (fetchManifest env st force).st k = rawGet st k := by
  unfold fetchManifest
  dsimp only
  split
  · rfl
  · split
    · split
      · exact rawGet_set_ne st k KEY_manifest _ (Ne.symm hk)
      · rfl
    · split
      · rfl
      · rfl

/-- C7: `checkUpdate` reports `updated = true` exactly when either both the
previously cached token and the freshly fetched token are present and
differ, or no valid previously cached token existed and a fresh token was
obtained. -/
theorem claim_C7_updated_iff (env : Env) (st : Store) :
    ((checkUpdate env st).updated = true) ↔
      ((validManifest (storageGet st KEY_manifest .null) = true ∧
        validManifest (checkUpdate env st).manifest = true ∧
        versionOf (storageGet st KEY_manifest .null) ≠ versionOf (checkUpdate env st).manifest)
       ∨ (validManifest (storageGet st KEY_manifest .null) = false ∧
          validManifest (checkUpdate env st).manifest = true)) := by
  have hm : (checkUpdate env st).manifest = (fetchManifest env st true).val := rfl
  have hu : (checkUpdate env st).updated
      = (truthy (fetchManifest env st true).val &&
         versionOf (fetchManifest env st true).val ≠ [] &&
         (!truthy (storageGet st KEY_manifest .null) ||
           decide (versionOf (storageGet st KEY_manifest .null)
             ≠ versionOf (fetchManifest env st true).val))) := rfl
  rw [hm, hu]
  unfold validManifest
  cases hto : truthy (storageGet st KEY_manifest .null) <;>
    cases htn : truthy (fetchManifest env st true).val <;>
      by_cases hvo : versionOf (storageGet st KEY_manifest .null) = [] <;>
        by_cases hvn : versionOf (fetchManifest env st true).val = [] <;>
          by_cases hee : versionOf (storageGet st KEY_manifest .null)
              = versionOf (fetchManifest env st true).val <;>
            simp_all

/-- C8: `checkUpdate` modifies at most the manifest slot; the index slot and
every `(item id, version)` item slot hold the same raw stored value after
the call as before it. -/
theorem claim_C8_only_manifest_slot (env : Env) (st : Store) :
    rawGet (checkUpdate env st).st KEY_index = rawGet st KEY_index ∧
    ∀ id version, rawGet (checkUpdate env st).st (recipeCacheKey id version)
        = rawGet st (recipeCacheKey id version) := by
  have hco : (checkUpdate env st).st = (fetchManifest env st true).st := rfl
  constructor
  · rw [hco]
    exact fetchManifest_st_frame env st true KEY_index (by decide)
  · intro id version
    rw [hco]
    exact fetchManifest_st_frame env st true _ (recipeKey_ne_manifest id version)

/-- Under a network where every request fails, `fetchManifest` returns the
cached document when it is valid and the bundled seed otherwise, and leaves
the store untouched. -/
lemma fetchManifest_net_err (env : Env) (st : Store) (force : Bool)
    (hnet : ∀ u, env.net u = .err) :
    (fetchManifest env st force).val =
      (if validManifest (storageGet st KEY_manifest .null) = true
       then storageGet st KEY_manifest .null
       else loadSeedJson env PATH_manifest) ∧
    (fetchManifest env st force).st = st := by
  unfold fetchManifest
  dsimp only
  split
  · rename_i h
    simp only [Bool.and_eq_true, Bool.not_eq_eq_eq_not, decide_eq_true_eq] at h
    constructor
    · simp [validManifest, h.1.2, h.2]
    · rfl
  · rw [hnet]
    dsimp only
    split
    · rename_i h2
      constructor
      · have h2' : validManifest (storageGet st KEY_manifest JSVal.null) = true := h2
        rw [if_pos h2']
      · rfl
    · rename_i h2
      constructor
      · simp only [validManifest]
        rw [if_neg (by simpa using h2)]
      · rfl

/-- C2: when every remote fetch fails, `fetchManifest` returns the cached
Manifest whenever a valid one (non-empty version) is stored; otherwise it
returns the bundled seed; and it returns `null` only when, in addition to
the failing network, no valid cache exists and the seed loads as `null`. -/
theorem claim_C2_fallback_order (env : Env) (st : Store) (force : Bool)
    (hnet : ∀ u, env.net u = .err) :
    (∀ v r, storageGet st KEY_manifest .null = .mdoc v r → v ≠ [] →
        (fetchManifest env st force).val = .mdoc v r) ∧
    ((∀ v r, storageGet st KEY_manifest .null = .mdoc v r → v = []) →
        (fetchManifest env st force).val = loadSeedJson env PATH_manifest) ∧
    ((fetchManifest env st force).val = .null →
        (∀ v r, storageGet st KEY_manifest .null = .mdoc v r → v = []) ∧
        loadSeedJson env PATH_manifest = .null) := by
  obtain ⟨hval, -⟩ := fetchManifest_net_err env st force hnet
  refine ⟨?_, ?_, ?_⟩
  · intro v r hc hv
    rw [hc] at hval
    rw [hval, if_pos (by simp [validManifest, truthy, versionOf, hv])]
  · intro hall
    have hinv : validManifest (storageGet st KEY_manifest .null) = false := by
      cases hc : storageGet st KEY_manifest .null <;>
        simp [validManifest, truthy, versionOf]
      exact hall _ _ hc
    rw [hval, if_neg (by simp [hinv])]
  · intro hnull
    rw [hval] at hnull
    by_cases hv : validManifest (storageGet st KEY_manifest .null) = true
    · rw [if_pos hv] at hnull
      rw [hnull] at hv
      exact absurd hv (by simp [validManifest, truthy])
    · rw [if_neg hv] at hnull
      refine ⟨?_, hnull⟩
      intro v r hc
      rw [hc] at hv
      by_contra hne
      exact hv (by simp [validManifest, truthy, versionOf, hne])

/-- Witness for C2: with the network down, a valid cached Manifest wins over
a present seed; with an empty store the seed is returned; with neither, the
result is `null`. -/
theorem claim_C2_witness :
    (fetchManifest ⟨fun _ => .err, jstr "1", fun _ => some (.mdoc (jstr "S") [])⟩
        [(KEY_manifest, .mdoc (jstr "V1") (jstr "c"))] true).val
      = .mdoc (jstr "V1") (jstr "c") :=
  (claim_C2_fallback_order ⟨fun _ => .err, jstr "1", fun _ => some (.mdoc (jstr "S") [])⟩
      [(KEY_manifest, .mdoc (jstr "V1") (jstr "c"))] true (fun _ => rfl)).1
    (jstr "V1") (jstr "c") (by decide) (by decide)

lemma nmtAdd_snd_true (acc : List JStr × Bool) (t : JStr) (h : acc.2 = true) :
    (nmtAdd acc t).2 = true := by
  unfold nmtAdd
  split
  · exact h
  · split
    · rfl
    · exact h

lemma nmtStep_snd_true (acc : List JStr × Bool) (t : JStr) (h : acc.2 = true) :
    (nmtStep acc t).2 = true := by
  unfold nmtStep
  split
  · exact h
  · split
    · exact nmtAdd_snd_true _ _ rfl
    · split
      · exact nmtAdd_snd_true _ _ rfl
      · split
        · exact nmtAdd_snd_true _ _ rfl
        · split
          · exact nmtAdd_snd_true _ _ rfl
          · split
            · exact nmtAdd_snd_true _ _ rfl
            · split
              · exact nmtAdd_snd_true _ _ rfl
              · exact nmtAdd_snd_true _ _ h

lemma nmt_changed_mono (l : List JStr) (acc : List JStr × Bool) (h : acc.2 = true) :
    (l.foldl nmtStep acc).2 = true := by
  induction l generalizing acc with
  | nil => exact h
  | cons t rest ih => exact ih _ (nmtStep_snd_true acc t h)

lemma nmtAdd_len (acc : List JStr × Bool) (t : JStr) :
    (nmtAdd acc t).1.length ≤ acc.1.length + 1 := by
  unfold nmtAdd
  split
  · omega
  · split
    · simp
    · simp

lemma nmtStep_len (acc : List JStr × Bool) (t : JStr) :
    (nmtStep acc t).1.length ≤ acc.1.length + 1 := by
  unfold nmtStep
  split
  · omega
  · split
    · exact nmtAdd_len _ _
    · split
      · exact nmtAdd_len _ _
      · split
        · exact nmtAdd_len _ _
        · split
          · exact nmtAdd_len _ _
          · split
            · exact nmtAdd_len _ _
            · split
              · exact nmtAdd_len _ _
              · exact nmtAdd_len _ _

lemma nmt_len_le (l : List JStr) (acc : List JStr × Bool) :
    (l.foldl nmtStep acc).1.length ≤ acc.1.length + l.length := by
  induction l generalizing acc with
  | nil => simp
  | cons t rest ih =>
    have h1 := ih (nmtStep acc t)
    have h2 := nmtStep_len acc t
    simp only [List.foldl_cons, List.length_cons]
    omega

/-- A tag string that the legacy table leaves alone: non-empty and not one
of the five tokens that are rewritten to a different token.  (The token
`正餐` is mapped to itself and may therefore appear in normalizer output.) -/
def goodTag (s : JStr) : Prop :=
  s ≠ [] ∧ s ≠ jstr "点心" ∧ s ≠ jstr "Breakfast" ∧ s ≠ jstr "Lunch" ∧
    s ≠ jstr "Dinner" ∧ s ≠ jstr "Snack"

/-- The invariant of the `out` accumulator: no duplicates and only tags the
table leaves alone. -/
def goodList (l : List JStr) : Prop :=
  l.Nodup ∧ ∀ s ∈ l, goodTag s

lemma nmtAdd_good (acc : List JStr × Bool) (t : JStr) (hg : goodList acc.1)
    (ht : goodTag t) : goodList (nmtAdd acc t).1 := by
  unfold nmtAdd
  split
  · exact hg
  · split
    · exact hg
    · rename_i hne hmem
      constructor
      · rw [show acc.1 ++ [t] = acc.1.concat t from (List.concat_eq_append acc.1 t).symm]
        exact hg.1.concat (by simpa using hmem)
      · intro s hs
        rcases List.mem_append.mp hs with h | h
        · exact hg.2 s h
        · rw [List.mem_singleton.mp h]; exact ht

lemma nmtStep_good (acc : List JStr × Bool) (t : JStr) (hg : goodList acc.1) :
    goodList (nmtStep acc t).1 := by
  unfold nmtStep
  split
  · exact hg
  · split
    · exact nmtAdd_good _ _ hg (by constructor <;> simp [jstr])
    · split
      · exact nmtAdd_good _ _ hg (by constructor <;> simp [jstr])
      · split
        · exact nmtAdd_good _ _ hg (by constructor <;> simp [jstr])
        · split
          · exact nmtAdd_good _ _ hg (by constructor <;> simp [jstr])
          · split
            · exact nmtAdd_good _ _ hg (by constructor <;> simp [jstr])
            · split
              · exact nmtAdd_good _ _ hg (by constructor <;> simp [jstr])
              · rename_i h0 h1 h2 h3 h4 h5 h6
                exact nmtAdd_good _ _ hg ⟨h0, h1, h3, h4, h5, h6⟩

lemma nmt_good (l : List JStr) (acc : List JStr × Bool) (hg : goodList acc.1) :
    goodList (l.foldl nmtStep acc).1 := by
  induction l generalizing acc with
  | nil => exact hg
  | cons t rest ih => exact ih _ (nmtStep_good acc t hg)

lemma nmtStep_fst_of_good (acc : List JStr × Bool) (t : JStr) (ht : goodTag t)
    (htn : t ∉ acc.1) : (nmtStep acc t).1 = acc.1 ++ [t] := by
  obtain ⟨h0, h1, h2, h3, h4, h5⟩ := ht
  by_cases hz : t = jstr "正餐"
  · subst hz
    simp [nmtStep, nmtAdd, htn, show ¬(jstr "正餐" = []) from by decide,
      show ¬(jstr "正餐" = jstr "点心") from by decide]
  · simp [nmtStep, nmtAdd, h0, h1, h2, h3, h4, h5, hz, htn]

lemma nmt_run_good (l : List JStr) (acc : List JStr × Bool)
    (hn : (acc.1 ++ l).Nodup) (hg : ∀ s ∈ l, goodTag s) :
    (l.foldl nmtStep acc).1 = acc.1 ++ l := by
  induction l generalizing acc with
  | nil => simp
  | cons t rest ih =>
    have ht : goodTag t := hg t (List.mem_cons_self t rest)
    have htn : t ∉ acc.1 := by
      rcases List.nodup_append.mp hn with ⟨-, -, disj⟩
      exact fun hmem => disj hmem (List.mem_cons_self t rest)
    have hn' : ((acc.1 ++ [t]) ++ rest).Nodup := by
      rw [List.append_assoc, List.singleton_append]
      exact hn
    have hfst := nmtStep_fst_of_good acc t ht htn
    simp only [List.foldl_cons]
    have := ih (nmtStep acc t) (by rw [hfst]; exact hn')
      (fun s hs => hg s (List.mem_cons_of_mem t hs))
    rw [this, hfst, List.append_assoc, List.singleton_append]

/-- A canonical tag: one the legacy table does not touch at all (not even
the self-mapping of `正餐`). -/
def canonicalTag (s : JStr) : Prop := goodTag s ∧ s ≠ jstr "正餐"

lemma nmtStep_of_canonical (acc : List JStr × Bool) (t : JStr)
    (ht : canonicalTag t) (htn : t ∉ acc.1) :
    nmtStep acc t = (acc.1 ++ [t], acc.2) := by
  obtain ⟨⟨h0, h1, h2, h3, h4, h5⟩, hz⟩ := ht
  simp [nmtStep, nmtAdd, h0, h1, h2, h3, h4, h5, hz, htn]

lemma nmt_run_canonical (l : List JStr) (acc : List JStr × Bool)
    (hn : (acc.1 ++ l).Nodup) (hg : ∀ s ∈ l, canonicalTag s) :
    l.foldl nmtStep acc = (acc.1 ++ l, acc.2) := by
  induction l generalizing acc with
  | nil => simp
  | cons t rest ih =>
    have ht : canonicalTag t := hg t (List.mem_cons_self t rest)
    have htn : t ∉ acc.1 := by
      rcases List.nodup_append.mp hn with ⟨-, -, disj⟩
      exact fun hmem => disj hmem (List.mem_cons_self t rest)
    have hn' : ((acc.1 ++ [t]) ++ rest).Nodup := by
      rw [List.append_assoc, List.singleton_append]
      exact hn
    have hstep := nmtStep_of_canonical acc t ht htn
    simp only [List.foldl_cons]
    rw [hstep]
    have := ih (acc.1 ++ [t], acc.2) (by exact hn')
      (fun s hs => hg s (List.mem_cons_of_mem t hs))
    rw [this, List.append_assoc, List.singleton_append]

lemma nmt_false_shape (l : List JStr) (acc : List JStr × Bool)
    (hf : (l.foldl nmtStep acc).2 = false)
    (hl : (l.foldl nmtStep acc).1.length = acc.1.length + l.length) :
    (l.foldl nmtStep acc).1 = acc.1 ++ l ∧ ∀ s ∈ l, goodTag s := by
  induction l generalizing acc with
  | nil => simp
  | cons t rest ih =>
    simp only [List.foldl_cons, List.length_cons] at hf hl ⊢
    have hchanged : (nmtStep acc t).2 = false := by
      by_contra hcon
      rw [nmt_changed_mono rest (nmtStep acc t)
        (by revert hcon; cases (nmtStep acc t).2 <;> simp)] at hf
      exact Bool.true_eq_false.mp hf
    have hgrow : (nmtStep acc t).1.length = acc.1.length + 1 := by
      have hle := nmt_len_le rest (nmtStep acc t)
      have hge := nmtStep_len acc t
      omega
    have h0 : t ≠ [] := by
      intro h
      rw [show nmtStep acc t = acc by simp [nmtStep, h]] at hgrow
      omega
    have hnotlegacy : ∀ u x, t = u → nmtStep acc t = nmtAdd (acc.1, true) x → False := by
      intro u x _ hstep
      rw [hstep] at hchanged
      rw [nmtAdd_snd_true (acc.1, true) x rfl] at hchanged
      exact Bool.true_eq_false.mp hchanged
    have h1 : t ≠ jstr "点心" := fun h =>
      hnotlegacy _ (jstr "小吃") h (by simp [nmtStep, h, jstr])
    have hz : t ≠ jstr "正餐" := fun h =>
      hnotlegacy _ (jstr "正餐") h (by simp [nmtStep, h, jstr])
    have h2 : t ≠ jstr "Breakfast" := fun h =>
      hnotlegacy _ (jstr "早餐") h (by simp [nmtStep, h, jstr])
    have h3 : t ≠ jstr "Lunch" := fun h =>
      hnotlegacy _ (jstr "午餐") h (by simp [nmtStep, h, jstr])
    have h4 : t ≠ jstr "Dinner" := fun h =>
      hnotlegacy _ (jstr "晚餐") h (by simp [nmtStep, h, jstr])
    have h5 : t ≠ jstr "Snack" := fun h =>
      hnotlegacy _ (jstr "小吃") h (by simp [nmtStep, h, jstr])
    have hgt : goodTag t := ⟨h0, h1, h2, h3, h4, h5⟩
    have hc : t ∉ acc.1 := by
      intro hmem
      have hstep : nmtStep acc t = (acc.1, true) := by
        simp [nmtStep, nmtAdd, h0, h1, hz, h2, h3, h4, h5, hmem]
      rw [hstep] at hchanged
      exact Bool.true_eq_false.mp hchanged
    have hstep : nmtStep acc t = (acc.1 ++ [t], acc.2) := by
      simp [nmtStep, nmtAdd, h0, h1, hz, h2, h3, h4, h5, hc]
    rw [hstep] at hf hl ⊢
    have hlen' : (rest.foldl nmtStep (acc.1 ++ [t], acc.2)).1.length
        = (acc.1 ++ [t], acc.2).1.length + rest.length := by
      simp only [List.length_append, List.length_singleton]
      omega
    obtain ⟨he, hgood⟩ := ih (acc.1 ++ [t], acc.2) hf hlen'
    refine ⟨?_, ?_⟩
    · rw [he, List.append_assoc, List.singleton_append]
    · intro s hs
      rcases List.mem_cons.mp hs with h | h
      · rw [h]; exact hgt
      · exact hgood s h

lemma nmt_same_ref (t : Option (List JStr)) (h : (normalizeMealTags t).2 = true) :
    (normalizeMealTags t).1 = t := by
  cases t with
  | none => rfl
  | some l =>
    unfold normalizeMealTags at h ⊢
    dsimp only at h ⊢
    split at h
    · rename_i hcond
      rw [if_pos hcond]
    · exact absurd h (by simp)

lemma nmt_result_good (t : Option (List JStr)) (l' : List JStr)
    (h : (normalizeMealTags t).1 = some l') : goodList l' := by
  cases t with
  | none => exact absurd h (by simp [normalizeMealTags])
  | some l =>
    have hg0 : goodList ([] : List JStr) := ⟨List.nodup_nil, by simp⟩
    unfold normalizeMealTags at h
    dsimp only at h
    split at h
    · rename_i hcond
      simp only [Bool.and_eq_true, Bool.not_eq_eq_eq_not, Bool.not_true, decide_eq_true_eq] at hcond
      obtain ⟨he, -⟩ := nmt_false_shape l ([], false) hcond.1 (by simpa using hcond.2)
      have hgout := nmt_good l ([], false) hg0
      rw [he] at hgout
      simp only [List.nil_append] at hgout
      simp only [Option.some.injEq] at h
      rw [← h]
      exact hgout
    · simp only [Option.some.injEq] at h
      rw [← h]
      exact nmt_good l ([], false) hg0

lemma nmt_fix_of_good (l : List JStr) (hg : goodList l) :
    (normalizeMealTags (some l)).1 = some l := by
  have hrun := nmt_run_good l ([], false) (by simpa using hg.1) hg.2
  simp only [List.nil_append] at hrun
  unfold normalizeMealTags
  dsimp only
  split
  · rfl
  · rw [hrun]

lemma nmt_idem (t : Option (List JStr)) :
    (normalizeMealTags (normalizeMealTags t).1).1 = (normalizeMealTags t).1 := by
  cases hf : (normalizeMealTags t).1 with
  | none => rfl
  | some l' => rw [nmt_fix_of_good l' (nmt_result_good t l' hf)]

lemma nmt_noop_canonical (l : List JStr) (hn : l.Nodup)
    (hc : ∀ s ∈ l, canonicalTag s) :
    normalizeMealTags (some l) = (some l, true) := by
  have hrun := nmt_run_canonical l ([], false) (by simpa using hn) hc
  simp only [List.nil_append] at hrun
  unfold normalizeMealTags
  dsimp only
  rw [hrun]
  simp

lemma join_absolute (p : JStr) : isAbsoluteUrl (joinUrl CDN_BASE p) = true := by
  unfold joinUrl
  dsimp only
  rw [if_neg (by decide)]
  rw [show CDN_BASE ++ ['/'] = jstr "http://" ++ jstr "127.0.0.1:8000/backend/data/"
    from by decide]
  rw [List.append_assoc]
  unfold isAbsoluteUrl
  rw [show (7 : Nat) = (jstr "http://").length from rfl, List.take_left]
  rw [show (jstr "http://").map Char.toLower = jstr "http://" from by decide]
  simp

lemma join_nonempty (p : JStr) : joinUrl CDN_BASE p ≠ [] := by
  intro h
  have habs := join_absolute p
  rw [h] at habs
  exact absurd habs (by decide)

lemma nmu_idem (u : Option JStr) :
    normalizeMediaUrl (normalizeMediaUrl u) = normalizeMediaUrl u := by
  cases u with
  | none => rfl
  | some s =>
    by_cases h0 : s = []
    · simp [normalizeMediaUrl, h0]
    · by_cases habs : isAbsoluteUrl s
      · simp [normalizeMediaUrl, h0, habs]
      · simp [normalizeMediaUrl, h0, habs, join_nonempty s, join_absolute s]

lemma nmu_noop (s : JStr) (h : isAbsoluteUrl s = true) :
    normalizeMediaUrl (some s) = some s := by
  have h0 : s ≠ [] := by
    intro he
    rw [he] at h
    exact absurd h (by decide)
  simp [normalizeMediaUrl, h0, h]

lemma normItem_same_ref (e : Option SItem) (h : (normItem e).2 = true) :
    (normItem e).1 = e := by
  cases e with
  | none => rfl
  | some i =>
    unfold normItem at h ⊢
    dsimp only at h ⊢
    split at h
    · rename_i hcond
      rw [if_pos hcond]
    · exact absurd h (by simp)

lemma normItem_fst_eq (i : SItem) :
    (normItem (some i)).1
      = some { i with cover_image := normalizeMediaUrl i.cover_image,
                      tags := (normalizeMealTags i.tags).1 } := by
  unfold normItem
  dsimp only
  split
  · rename_i hcond
    obtain ⟨h1, h2⟩ := hcond
    rw [h1, nmt_same_ref i.tags h2]
  · rfl

lemma normItem_fst (e : Option SItem) :
    (normItem (normItem e).1).1 = (normItem e).1 := by
  cases e with
  | none => rfl
  | some i =>
    rw [normItem_fst_eq i, normItem_fst_eq]
    simp [nmu_idem, nmt_idem]

lemma normStep_same_ref (e : Option SStep) (h : (normStep e).2 = true) :
    (normStep e).1 = e := by
  cases e with
  | none => rfl
  | some s =>
    unfold normStep at h ⊢
    dsimp only at h ⊢
    split at h
    · rename_i hcond
      rw [if_pos hcond]
    · exact absurd h (by simp)

lemma normStep_fst_eq (s : SStep) :
    (normStep (some s)).1 = some { s with img := normalizeMediaUrl s.img } := by
  unfold normStep
  dsimp only
  split
  · rename_i h
    rw [h]
  · rfl

lemma normStep_fst (e : Option SStep) :
    (normStep (normStep e).1).1 = (normStep e).1 := by
  cases e with
  | none => rfl
  | some s =>
    rw [normStep_fst_eq s, normStep_fst_eq]
    simp [nmu_idem]

lemma itemsMap_of_not_changed (l : List (Option SItem))
    (h : (l.map normItem).any (fun p => !p.2) = false) :
    l.map (fun e => (normItem e).1) = l := by
  have hall : ∀ e ∈ l, (normItem e).2 = true := by
    intro e he
    by_contra hc
    have hfalse : (normItem e).2 = false := by
      revert hc
      cases (normItem e).2 <;> simp
    have : (l.map normItem).any (fun p => !p.2) = true :=
      List.any_eq_true.mpr ⟨normItem e, List.mem_map_of_mem _ he, by rw [hfalse]; rfl⟩
    simp_all
  calc l.map (fun e => (normItem e).1)
      = l.map id := List.map_congr_left (fun e he => normItem_same_ref e (hall e he))
    _ = l := List.map_id l

lemma stepsMap_of_not_changed (l : List (Option SStep))
    (h : (l.map normStep).any (fun p => !p.2) = false) :
    l.map (fun e => (normStep e).1) = l := by
  have hall : ∀ e ∈ l, (normStep e).2 = true := by
    intro e he
    by_contra hc
    have hfalse : (normStep e).2 = false := by
      revert hc
      cases (normStep e).2 <;> simp
    have : (l.map normStep).any (fun p => !p.2) = true :=
      List.any_eq_true.mpr ⟨normStep e, List.mem_map_of_mem _ he, by rw [hfalse]; rfl⟩
    simp_all
  calc l.map (fun e => (normStep e).1)
      = l.map id := List.map_congr_left (fun e he => normStep_same_ref e (hall e he))
    _ = l := List.map_id l

lemma nxv_fst_eq (items : List (Option SItem)) (rest : JStr) :
    (normalizeIndexVal (.xdoc (some items) rest)).1
      = .xdoc (some (items.map (fun e => (normItem e).1))) rest := by
  unfold normalizeIndexVal
  dsimp only
  split
  · simp [List.map_map, Function.comp]
  · rename_i hno
    have h : (items.map normItem).any (fun p => !p.2) = false := by
      revert hno
      cases (items.map normItem).any (fun p => !p.2) <;> simp
    rw [itemsMap_of_not_changed items h]

/-- The steps field produced by `normalizeRecipeData`: untouched when not an
array, each entry's `img` normalized otherwise. -/
def normSteps : Option (List (Option SStep)) → Option (List (Option SStep))
  | none => none
  | some l => some (l.map fun e => (normStep e).1)

lemma normSteps_idem (steps : Option (List (Option SStep))) :
    normSteps (normSteps steps) = normSteps steps := by
  cases steps with
  | none => rfl
  | some l =>
    show some ((l.map fun e => (normStep e).1).map fun e => (normStep e).1)
        = some (l.map fun e => (normStep e).1)
    rw [List.map_map]
    exact congrArg some (List.map_congr_left (fun e _ => normStep_fst e))

lemma nrv_fst_eq (id : JStr) (cover : Option JStr) (tags : Option (List JStr))
    (steps : Option (List (Option SStep))) (rest : JStr) (hid : id ≠ []) :
    (normalizeRecipeVal (.rdoc id cover tags steps rest)).1
      = .rdoc id (normalizeMediaUrl cover) (normalizeMealTags tags).1
          (normSteps steps) rest := by
  unfold normalizeRecipeVal
  dsimp only
  rw [if_neg hid]
  cases steps with
  | none =>
    by_cases hcov : normalizeMediaUrl cover = cover <;>
      by_cases htag : (normalizeMealTags tags).2 = true <;>
        simp [normSteps, hcov, htag, nmt_same_ref]
  | some l =>
    by_cases hstep : (l.map normStep).any (fun p => !p.2) = true
    · by_cases hcov : normalizeMediaUrl cover = cover <;>
        by_cases htag : (normalizeMealTags tags).2 = true <;>
          simp [normSteps, hcov, htag, hstep, nmt_same_ref, List.map_map, Function.comp]
    · have hstep' : (l.map normStep).any (fun p => !p.2) = false := by
        revert hstep
        cases (l.map normStep).any (fun p => !p.2) <;> simp
      by_cases hcov : normalizeMediaUrl cover = cover <;>
        by_cases htag : (normalizeMealTags tags).2 = true <;>
          simp [normSteps, hcov, htag, hstep', nmt_same_ref,
            stepsMap_of_not_changed l hstep']

/-- C5: both normalizers are idempotent — running `normalizeIndexData` or
`normalizeRecipeData` (with their media-URL rewriting and legacy-tag mapping
with first-occurrence de-duplication) a second time returns a document
structurally equal to the first run's result, for every input document. -/
theorem claim_C5_normalizer_idempotent (d : JSVal) :
    (normalizeIndexVal (normalizeIndexVal d).1).1 = (normalizeIndexVal d).1 ∧
    (normalizeRecipeVal (normalizeRecipeVal d).1).1 = (normalizeRecipeVal d).1 := by
  constructor
  · cases d with
    | xdoc items rest =>
      cases items with
      | none => rfl
      | some l =>
        rw [nxv_fst_eq l rest, nxv_fst_eq]
        rw [List.map_map]
        exact congrArg (fun x => JSVal.xdoc (some x) rest)
          (List.map_congr_left (fun e _ => normItem_fst e))
    | null => rfl
    | str s => rfl
    | mdoc v r => rfl
    | rdoc i c t s r => rfl
  · cases d with
    | rdoc id cover tags steps rest =>
      by_cases hid : id = []
      · subst hid
        rfl
      · rw [nrv_fst_eq id cover tags steps rest hid,
            nrv_fst_eq id _ _ _ rest hid]
        rw [nmu_idem, nmt_idem, normSteps_idem]
    | null => rfl
    | str s => rfl
    | mdoc v r => rfl
    | xdoc i r => rfl

/-- Decidable form of `canonicalTag`: non-empty and not a key of the legacy
mapping table of `normalizeMealTags`. -/
def canonicalTagB (s : JStr) : Bool :=
  decide (s ≠ []) && decide (s ≠ jstr "点心") && decide (s ≠ jstr "正餐") &&
  decide (s ≠ jstr "Breakfast") && decide (s ≠ jstr "Lunch") &&
  decide (s ≠ jstr "Dinner") && decide (s ≠ jstr "Snack")

/-- A media URL field that is already normal: absent, or an absolute URL. -/
def mediaNormalB : Option JStr → Bool
  | none => true
  | some s => isAbsoluteUrl s

/-- A tags field that is already normal: absent, or canonical tokens only
with no duplicates. -/
def tagsNormalB : Option (List JStr) → Bool
  | none => true
  | some l => decide l.Nodup && l.all canonicalTagB

/-- An index item whose cover and tags are already normal. -/
def itemNormalB : Option SItem → Bool
  | none => true
  | some i => mediaNormalB i.cover_image && tagsNormalB i.tags

/-- An index document whose items are all already normal (non-index values
are vacuously normal for the index normalizer, which ignores them). -/
def indexNormalB : JSVal → Bool
  | .xdoc (some items) _ => items.all itemNormalB
  | _ => true

/-- A step whose image is already normal. -/
def stepNormalB : Option SStep → Bool
  | none => true
  | some s => mediaNormalB s.img

/-- A detail document whose cover, tags and step images are all already
normal. -/
def recipeNormalB : JSVal → Bool
  | .rdoc _ cover tags steps _ =>
    mediaNormalB cover && tagsNormalB tags &&
      (match steps with
       | none => true
       | some l => l.all stepNormalB)
  | _ => true

lemma canonicalTagB_iff (s : JStr) : canonicalTagB s = true ↔ canonicalTag s := by
  simp only [canonicalTagB, canonicalTag, goodTag, Bool.and_eq_true, decide_eq_true_eq]
  tauto

lemma mediaNormal_noop (m : Option JStr) (h : mediaNormalB m = true) :
    normalizeMediaUrl m = m := by
  cases m with
  | none => rfl
  | some s => exact nmu_noop s h

lemma tagsNormal_noop (t : Option (List JStr)) (h : tagsNormalB t = true) :
    normalizeMealTags t = (t, true) := by
  cases t with
  | none => rfl
  | some l =>
    simp only [tagsNormalB, Bool.and_eq_true, decide_eq_true_eq, List.all_eq_true] at h
    exact nmt_noop_canonical l h.1 (fun s hs => (canonicalTagB_iff s).mp (h.2 s hs))

lemma itemNormal_noop (e : Option SItem) (h : itemNormalB e = true) :
    normItem e = (e, true) := by
  cases e with
  | none => rfl
  | some i =>
    simp only [itemNormalB, Bool.and_eq_true] at h
    unfold normItem
    dsimp only
    rw [if_pos ⟨mediaNormal_noop _ h.1, by rw [tagsNormal_noop _ h.2]⟩]

lemma stepNormal_noop (e : Option SStep) (h : stepNormalB e = true) :
    normStep e = (e, true) := by
  cases e with
  | none => rfl
  | some s =>
    unfold normStep
    dsimp only
    rw [if_pos (mediaNormal_noop _ h)]

/-- C6: the normalizers are structural no-ops on already-normal input: an
index document with only absolute cover URLs and canonical, duplicate-free
tags, and a detail document with only absolute media URLs and canonical,
duplicate-free tags, are returned as the identical reference (the `true`
flag models reference identity with the argument). -/
theorem claim_C6_normalizer_noop (di dr : JSVal)
    (hi : indexNormalB di = true) (hr : recipeNormalB dr = true) :
    normalizeIndexVal di = (di, true) ∧ normalizeRecipeVal dr = (dr, true) := by
  constructor
  · cases di with
    | xdoc items rest =>
      cases items with
      | none => rfl
      | some l =>
        simp only [indexNormalB, List.all_eq_true] at hi
        have hany : (l.map normItem).any (fun p => !p.2) = false := by
          apply List.any_eq_false.mpr
          intro p hp
          rcases List.mem_map.mp hp with ⟨e, he, hpe⟩
          rw [← hpe, itemNormal_noop e (hi e he)]
          simp
        unfold normalizeIndexVal
        dsimp only
        split
        · rename_i hc
          rw [hany] at hc
          exact absurd hc (by simp)
        · rfl
    | null => rfl
    | str s => rfl
    | mdoc v r => rfl
    | rdoc i c t s r => rfl
  · cases dr with
    | rdoc id cover tags steps rest =>
      by_cases hid : id = []
      · unfold normalizeRecipeVal
        dsimp only
        rw [if_pos hid]
      · simp only [recipeNormalB, Bool.and_eq_true] at hr
        have hcov := mediaNormal_noop cover hr.1.1
        have htags := tagsNormal_noop tags hr.1.2
        unfold normalizeRecipeVal
        dsimp only
        rw [if_neg hid]
        cases steps with
        | none => simp [hcov, htags]
        | some l =>
          have hany : (l.map normStep).any (fun p => !p.2) = false := by
            apply List.any_eq_false.mpr
            intro p hp
            rcases List.mem_map.mp hp with ⟨e, he, hpe⟩
            have := hr.2
            simp only [List.all_eq_true] at this
            rw [← hpe, stepNormal_noop e (this e he)]
            simp
          simp [hcov, htags, hany]
    | null => rfl
    | str s => rfl
    | mdoc v r => rfl
    | xdoc i r => rfl

/-- Witness for C6 at concrete already-normal documents. -/
theorem claim_C6_witness :
    normalizeIndexVal (.xdoc (some [some ⟨some (jstr "http://x/a.png"),
        some [jstr "早餐"], jstr "k"⟩, none]) (jstr "z"))
      = (.xdoc (some [some ⟨some (jstr "http://x/a.png"),
        some [jstr "早餐"], jstr "k"⟩, none]) (jstr "z"), true) ∧
    normalizeRecipeVal (.rdoc (jstr "r1") (some (jstr "https://y/b.png"))
        (some [jstr "小吃", jstr "晚餐"])
        (some [some ⟨some (jstr "http://z/c.png"), jstr "s"⟩]) (jstr "w"))
      = (.rdoc (jstr "r1") (some (jstr "https://y/b.png"))
        (some [jstr "小吃", jstr "晚餐"])
        (some [some ⟨some (jstr "http://z/c.png"), jstr "s"⟩]) (jstr "w"), true) :=
  claim_C6_normalizer_noop _ _ (by decide) (by decide)

lemma nxv_noitems (data : JSVal) (h : hasItems data = false) :
    normalizeIndexVal data = (data, true) := by
  cases data with
  | xdoc items r =>
    cases items with
    | none => rfl
    | some l => exact absurd h (by simp [hasItems])
  | null => rfl
  | str s => rfl
  | mdoc v r => rfl
  | rdoc i c t s r => rfl

lemma nrv_noid (data : JSVal) (h : idOf data = []) :
    normalizeRecipeVal data = (data, true) := by
  cases data with
  | rdoc i c t s r =>
    simp only [idOf] at h
    unfold normalizeRecipeVal
    dsimp only
    rw [if_pos h]
  | null => rfl
  | str s => rfl
  | mdoc v r => rfl
  | xdoc i r => rfl

/-- `fetchManifest` on a successful fetch whose body is not a valid manifest
returns the body and does not touch the store. -/
lemma fetchManifest_ok_invalid (env : Env) (st : Store) (force : Bool) (data : JSVal)
    (hnet : ∀ u, env.net u = .ok data)
    (hmiss : (!force && validManifest (storageGet st KEY_manifest .null)) = false)
    (hinv : validManifest data = false) :
    (fetchManifest env st force).val = data ∧ (fetchManifest env st force).st = st := by
  unfold fetchManifest
  dsimp only
  rw [if_neg (by
    rw [Bool.and_assoc, show (truthy (storageGet st KEY_manifest .null) &&
      decide (versionOf (storageGet st KEY_manifest .null) ≠ []))
        = validManifest (storageGet st KEY_manifest .null) from rfl, hmiss]
    simp)]
  rw [hnet]
  dsimp only
  rw [if_neg (by
    rw [show (truthy data && decide (versionOf data ≠ [])) = validManifest data from rfl,
      hinv]
    simp)]
  exact ⟨rfl, rfl⟩

/-- `fetchIndex` on a successful fetch whose body has no `items` array
returns the body unchanged (normalization is the identity on it) and leaves
the index slot alone. -/
lemma fetchIndex_ok_invalid (env : Env) (st : Store) (force : Bool) (data : JSVal)
    (hnet : ∀ u, env.net u = .ok data)
    (hmiss : (!force && truthy (storageGet st KEY_index .null) &&
      hasItems (storageGet st KEY_index .null)) = false)
    (hinv : hasItems data = false) :
    (fetchIndex env st force).val = data ∧
    rawGet (fetchIndex env st force).st KEY_index = rawGet st KEY_index := by
  have hnx := nxv_noitems data hinv
  unfold fetchIndex
  dsimp only
  rw [if_neg (by rw [hmiss]; simp)]
  rw [hnet]
  dsimp only
  rw [hnx]
  dsimp only
  rw [if_neg (by rw [hinv]; simp)]
  refine ⟨rfl, ?_⟩
  split
  · dsimp only
    exact fetchManifest_st_frame env st false KEY_index (by decide)
  · rfl

/-- `fetchRecipe` on a successful fetch whose body has no truthy `id`
returns the body unchanged and leaves every item slot alone. -/
lemma fetchRecipe_ok_invalid (env : Env) (st : Store) (id : JStr)
    (version : Option JStr) (force : Bool) (data : JSVal)
    (hnet : ∀ u, env.net u = .ok data) (hid : id ≠ [])
    (hmiss : (!force && truthy (storageGet st (recipeCacheKey id version) .null) &&
      decide (idOf (storageGet st (recipeCacheKey id version) .null) ≠ [])) = false)
    (hinv : idOf data = []) :
    (fetchRecipe env st id force version).val = data ∧
    ∀ id2 v2, rawGet (fetchRecipe env st id force version).st (recipeCacheKey id2 v2)
        = rawGet st (recipeCacheKey id2 v2) := by
  have hnr := nrv_noid data hinv
  unfold fetchRecipe
  dsimp only
  rw [if_neg hid]
  rw [if_neg (by rw [hmiss]; simp)]
  rw [hnet]
  dsimp only
  rw [hnr]
  dsimp only
  rw [if_neg (by rw [hinv]; simp)]
  refine ⟨rfl, ?_⟩
  intro id2 v2
  split
  · dsimp only
    exact fetchManifest_st_frame env st false _ (recipeKey_ne_manifest id2 v2)
  · rfl

/-- C10: when the remote fetch succeeds but the decoded body fails the
resolver's validity check (a manifest without a non-empty version, an index
without an items array, an item detail without a truthy id), the body is
normalized (a no-op on such bodies) and returned as-is: it is not persisted
to the resolver's slot and no fallback to cache or bundled default occurs.
The miss-condition hypotheses state that the call actually fetches (forced,
or no usable cached value). -/
theorem claim_C10_invalid_body_returned_unpersisted (env : Env) (st : Store)
    (data : JSVal) (hnet : ∀ u, env.net u = .ok data) :
    (∀ force, (!force && validManifest (storageGet st KEY_manifest .null)) = false →
      validManifest data = false →
      (fetchManifest env st force).val = data ∧ (fetchManifest env st force).st = st) ∧
    (∀ force, (!force && truthy (storageGet st KEY_index .null) &&
        hasItems (storageGet st KEY_index .null)) = false →
      hasItems data = false →
      (fetchIndex env st force).val = data ∧ normalizeIndexVal data = (data, true) ∧
      rawGet (fetchIndex env st force).st KEY_index = rawGet st KEY_index) ∧
    (∀ id version force, id ≠ [] →
      (!force && truthy (storageGet st (recipeCacheKey id version) .null) &&
        decide (idOf (storageGet st (recipeCacheKey id version) .null) ≠ [])) = false →
      idOf data = [] →
      (fetchRecipe env st id force version).val = data ∧
      normalizeRecipeVal data = (data, true) ∧
      ∀ id2 v2, rawGet (fetchRecipe env st id force version).st (recipeCacheKey id2 v2)
          = rawGet st (recipeCacheKey id2 v2)) := by
  refine ⟨?_, ?_, ?_⟩
  · intro force hmiss hinv
    exact fetchManifest_ok_invalid env st force data hnet hmiss hinv
  · intro force hmiss hinv
    obtain ⟨h1, h2⟩ := fetchIndex_ok_invalid env st force data hnet hmiss hinv
    exact ⟨h1, nxv_noitems data hinv, h2⟩
  · intro id version force hid hmiss hinv
    obtain ⟨h1, h2⟩ := fetchRecipe_ok_invalid env st id version force data hnet hid hmiss hinv
    exact ⟨h1, nrv_noid data hinv, h2⟩

/-- Witness for C10: a remote body that is a bare string fails all three
validity checks, is returned by all three resolvers, and nothing is
persisted into an empty store's slots. -/
theorem claim_C10_witness :
    (fetchManifest ⟨fun _ => .ok (.str (jstr "oops")), jstr "1", fun _ => none⟩
        [] true).val = .str (jstr "oops") ∧
    (fetchIndex ⟨fun _ => .ok (.str (jstr "oops")), jstr "1", fun _ => none⟩
        [] true).val = .str (jstr "oops") ∧
    (fetchRecipe ⟨fun _ => .ok (.str (jstr "oops")), jstr "1", fun _ => none⟩
        [] (jstr "r1") true none).val = .str (jstr "oops") := by
  have h := claim_C10_invalid_body_returned_unpersisted
    ⟨fun _ => .ok (.str (jstr "oops")), jstr "1", fun _ => none⟩ []
    (.str (jstr "oops")) (fun _ => rfl)
  exact ⟨(h.1 true (by decide) (by decide)).1,
    (h.2.1 true (by decide) (by decide)).1,
    (h.2.2 (jstr "r1") none true (by decide) (by decide) (by decide)).1⟩

lemma recipeKey_inj_version (X V1 V2 : JStr) (h1 : V1 ≠ []) (h2 : V2 ≠ [])
    (hne : V1 ≠ V2) : recipeCacheKey X (some V1) ≠ recipeCacheKey X (some V2) := by
  intro h
  unfold recipeCacheKey at h
  simp only [if_neg h1, if_neg h2, List.append_assoc] at h
  exact hne (List.append_cancel_left (List.append_cancel_left
    (List.append_cancel_left (List.append_cancel_left h))))

/-- `fetchManifest` neither reads nor overwrites a slot other than the
manifest slot: its result value is unchanged by such a slot, and the slot's
content survives the call. -/
lemma fetchManifest_set_other (env : Env) (st : Store) (force : Bool) (k : JStr)
    (D : JSVal) (hk : k ≠ KEY_manifest) :
    (fetchManifest env (storageSet st k D) force).val = (fetchManifest env st force).val ∧
    rawGet (fetchManifest env (storageSet st k D) force).st k = some D := by
  constructor
  · unfold fetchManifest
    dsimp only
    rw [storageGet_set_ne st KEY_manifest k D .null hk]
    split
    · rfl
    · split
      · rfl
      · split
        · rfl
        · rfl
  · unfold fetchManifest
    dsimp only
    rw [storageGet_set_ne st KEY_manifest k D .null hk]
    split
    · exact rawGet_set_self st k D
    · split
      · split
        · rw [rawGet_set_ne _ _ _ _ (Ne.symm hk)]
          exact rawGet_set_self st k D
        · exact rawGet_set_self st k D
      · split
        · exact rawGet_set_self st k D
        · exact rawGet_set_self st k D

/-- C4: with non-empty distinct version tokens `V1 ≠ V2`, a `fetchRecipe` of
`X` under `V2` with `force = false` never observes the `(X, V1)` slot — its
result is the same whether or not that slot is populated — and the call
never overwrites the `(X, V1)` slot: the value `D1` placed there survives. -/
theorem claim_C4_version_scoped_slots (env : Env) (st : Store) (X V1 V2 : JStr)
    (D1 : JSVal) (h1 : V1 ≠ []) (h2 : V2 ≠ []) (hne : V1 ≠ V2) :
    (fetchRecipe env (storageSet st (recipeCacheKey X (some V1)) D1) X false
        (some V2)).val
      = (fetchRecipe env st X false (some V2)).val ∧
    rawGet (fetchRecipe env (storageSet st (recipeCacheKey X (some V1)) D1) X false
        (some V2)).st (recipeCacheKey X (some V1)) = some D1 := by
  have hk12 : recipeCacheKey X (some V1) ≠ recipeCacheKey X (some V2) :=
    recipeKey_inj_version X V1 V2 h1 h2 hne
  have hkm : recipeCacheKey X (some V1) ≠ KEY_manifest := recipeKey_ne_manifest X (some V1)
  have hfm := fetchManifest_set_other env st false (recipeCacheKey X (some V1)) D1 hkm
  by_cases hx : X = []
  · constructor
    · simp [fetchRecipe, hx]
    · simp [fetchRecipe, hx, rawGet_set_self]
  · constructor
    · unfold fetchRecipe
      dsimp only
      rw [if_neg hx, if_neg hx]
      rw [storageGet_set_ne st (recipeCacheKey X (some V2)) (recipeCacheKey X (some V1))
        D1 .null hk12]
      rw [storageGet_set_ne st KEY_manifest (recipeCacheKey X (some V1)) D1 .null hkm]
      split
      · rfl
      · by_cases hm : (!truthy (storageGet st KEY_manifest JSVal.null) ||
            decide (versionOf (storageGet st KEY_manifest JSVal.null) = [])) = true
        · rw [if_pos hm, if_pos hm]
          dsimp only
          rw [hfm.1]
          split
          · rfl
          · split
            · rfl
            · rfl
        · rw [if_neg hm, if_neg hm]
          dsimp only
          split
          · rfl
          · split
            · rfl
            · rfl
    · unfold fetchRecipe
      dsimp only
      rw [if_neg hx]
      rw [storageGet_set_ne st (recipeCacheKey X (some V2)) (recipeCacheKey X (some V1))
        D1 .null hk12]
      rw [storageGet_set_ne st KEY_manifest (recipeCacheKey X (some V1)) D1 .null hkm]
      split
      · split
        · rw [rawGet_set_ne _ _ _ _ (Ne.symm hk12)]
          exact rawGet_set_self st _ D1
        · exact rawGet_set_self st _ D1
      · by_cases hm : (!truthy (storageGet st KEY_manifest JSVal.null) ||
            decide (versionOf (storageGet st KEY_manifest JSVal.null) = [])) = true
        · rw [if_pos hm]
          dsimp only
          split
          · split
            · rw [rawGet_set_ne _ _ _ _ (Ne.symm hk12)]
              exact hfm.2
            · exact hfm.2
          · split
            · split
              · rw [rawGet_set_ne _ _ _ _ (Ne.symm hk12)]
                exact hfm.2
              · exact hfm.2
            · exact hfm.2
        · rw [if_neg hm]
          dsimp only
          split
          · split
            · rw [rawGet_set_ne _ _ _ _ (Ne.symm hk12)]
              exact rawGet_set_self st _ D1
            · exact rawGet_set_self st _ D1
          · split
            · split
              · rw [rawGet_set_ne _ _ _ _ (Ne.symm hk12)]
                exact rawGet_set_self st _ D1
              · exact rawGet_set_self st _ D1
            · exact rawGet_set_self st _ D1


/-- Witness for C4 at concrete store, tokens and document. -/
theorem claim_C4_witness :
    (fetchRecipe ⟨fun _ => .err, jstr "9", fun _ => none⟩
        (storageSet [] (recipeCacheKey (jstr "x") (some (jstr "1")))
          (.rdoc (jstr "x") none none none (jstr "old"))) (jstr "x") false
        (some (jstr "2"))).val
      = (fetchRecipe ⟨fun _ => .err, jstr "9", fun _ => none⟩ [] (jstr "x") false
        (some (jstr "2"))).val ∧
    rawGet (fetchRecipe ⟨fun _ => .err, jstr "9", fun _ => none⟩
        (storageSet [] (recipeCacheKey (jstr "x") (some (jstr "1")))
          (.rdoc (jstr "x") none none none (jstr "old"))) (jstr "x") false
        (some (jstr "2"))).st (recipeCacheKey (jstr "x") (some (jstr "1")))
      = some (.rdoc (jstr "x") none none none (jstr "old")) :=
  claim_C4_version_scoped_slots ⟨fun _ => .err, jstr "9", fun _ => none⟩ []
    (jstr "x") (jstr "1") (jstr "2") (.rdoc (jstr "x") none none none (jstr "old"))
    (by decide) (by decide) (by decide)
